import Mathlib

/-!
Shallow embedding of the subnet arithmetic engine of the Subnetting Tutor
web application (the SubnetEngine module of the source). JavaScript numbers
that arise inside the engine are exact integers (every operand is either a
32-bit value produced by a bitwise operator, a small loop index, or an exact
power of two below 2^53), so they are modelled as Lean Int; the NaN value
that parseInt can produce is modelled by JSNum at the single place it can
flow, ipToInt. The JavaScript bitwise operators coerce their operands with
ToInt32/ToUint32 and take shift counts modulo 32; the model reproduces this
exactly, because the engine relies on it and its corner cases at prefix 0
and prefix 32 are visible in the theorems below.
-/

namespace SubnetEngine

set_option maxRecDepth 40000

/-- ECMAScript ToUint32: the operand modulo 2^32, in [0, 2^32). -/
def toUint32 (n : Int) : Int := n % 4294967296

/-- ECMAScript ToInt32: the operand modulo 2^32, represented in [-2^31, 2^31). -/
def toInt32 (n : Int) : Int :=
  if toUint32 n < 2147483648 then toUint32 n else toUint32 n - 4294967296

/-- JavaScript a << b: ToInt32 of the left operand, shifted left by
ToUint32(b) mod 32 (the mod-32 shift count is the ECMAScript rule), the
result reinterpreted as a signed 32-bit value. -/
def jsShl (a b : Int) : Int := toInt32 (toInt32 a * 2 ^ ((toUint32 b).toNat % 32))

/-- JavaScript a >>> b: ToUint32 of the left operand, shifted right by
ToUint32(b) mod 32; the result is unsigned. In particular a >>> 0 is
ToUint32(a). -/
def jsShrU (a b : Int) : Int := (((toUint32 a).toNat >>> ((toUint32 b).toNat % 32) : Nat) : Int)

/-- JavaScript (a & b) >>> 0: bitwise and of the 32-bit patterns, read back
as an unsigned value. The engine always wraps & in a trailing >>> 0, which
makes the intermediate signed reinterpretation invisible, so the model
fuses the two steps. -/
def jsAndU (a b : Int) : Int := (((toUint32 a).toNat &&& (toUint32 b).toNat : Nat) : Int)

/-- JavaScript (a | b) >>> 0, fused the same way as jsAndU. -/
def jsOrU (a b : Int) : Int := (((toUint32 a).toNat ||| (toUint32 b).toNat : Nat) : Int)

/-- Split of a character list at every occurrence of sep, keeping empty
segments: the behaviour of JavaScript String.prototype.split with a
one-character separator (n separators yield n+1 segments). -/
def jsSplit (sep : Char) : List Char → List (List Char)
  | [] => [[]]
  | c :: cs =>
    if c = sep then [] :: jsSplit sep cs
    else
      match jsSplit sep cs with
      | [] => [[c]]
      | s :: ss => (c :: s) :: ss

/-- Decimal digit characters of a natural number: Number.prototype.toString
for non-negative integer values (no sign, no leading zeros). -/
def natDecRepr (n : Nat) : List Char := (Nat.repr n).data

/-- Number.prototype.toString for integer-valued JavaScript numbers. -/
def jsIntToString (n : Int) : List Char :=
  if n < 0 then '-' :: natDecRepr n.natAbs else natDecRepr n.toNat

/-- The whitespace characters parseInt skips (the ASCII part of the
ECMAScript StrWhiteSpace set; nothing in this development feeds parseInt a
non-ASCII space). -/
def jsWhitespace (c : Char) : Bool :=
  c = ' ' || c = '\t' || c = '\n' || c = '\r' || c = '\x0b' || c = '\x0c'

/-- Value of the longest leading run of decimal digits, when non-empty. -/
def leadingDigitsVal (cs : List Char) : Option Nat :=
  let ds := cs.takeWhile (fun c => c.isDigit)
  if ds = [] then none
  else some (ds.foldl (fun a c => a * 10 + (c.toNat - 48)) 0)

/-- JavaScript parseInt(text, 10): skip leading whitespace, read an optional
sign, then the longest run of decimal digits; NaN (here none) when no digit
follows. (parseInt of 16-plus-digit strings rounds in JavaScript; every
call site in the engine packs or compares the result only when it is at
most 255, where this integer model is exact.) -/
def jsParseInt10 (cs : List Char) : Option Int :=
  match cs.dropWhile jsWhitespace with
  | [] => none
  | c :: rest =>
    if c = '-' then (leadingDigitsVal rest).map (fun v => -(v : Int))
    else if c = '+' then (leadingDigitsVal rest).map (fun v => (v : Int))
    else (leadingDigitsVal (c :: rest)).map (fun v => (v : Int))

/-- SubnetEngine.isValidIP: exactly four dot-separated segments, each
parsing to a number num in [0, 255] with octet === num.toString(). A NaN
from parseInt fails the num >= 0 comparison, hence the none branch. -/
def isValidIP (ip : String) : Bool :=
  let octets := jsSplit '.' ip.data
  if octets.length ≠ 4 then false
  else octets.all (fun octet =>
    match jsParseInt10 octet with
    | none => false
    | some num => decide (0 ≤ num) && decide (num ≤ 255) && octet == jsIntToString num)

/-- SubnetEngine.isValidPrefix: an integer in [0, 32]. The Number.isInteger
conjunct of the source is always true in this model, where the argument is
an Int; the name follows the spec's isValidPrefixLength to suit Lean. -/
def isValidPrefixLength (p : Int) : Bool := decide (0 ≤ p) && decide (p ≤ 32)

/-- A JavaScript number that is either NaN or an exact integer. -/
inductive JSNum where
  | nan : JSNum
  | num : Int → JSNum

/-- ToInt32/ToUint32 send NaN to 0; every other engine value is an integer. -/
def JSNum.toI : JSNum → Int
  | .nan => 0
  | .num v => v

/-- SubnetEngine.ipToInt: ip.split('.').reduce((int, octet) => (int << 8) +
parseInt(octet, 10), 0) >>> 0. A NaN from parseInt propagates through + but
is flushed to 0 by << and by the final >>> 0, exactly as in JavaScript. -/
def ipToInt (ip : String) : Int :=
  let acc := (jsSplit '.' ip.data).foldl
    (fun acc octet =>
      match jsParseInt10 octet with
      | some v => JSNum.num (jsShl acc.toI 8 + v)
      | none => JSNum.nan)
    (JSNum.num 0)
  jsShrU acc.toI 0

/-- SubnetEngine.intToIP: [(int >>> 24) & 255, (int >>> 16) & 255,
(int >>> 8) & 255, int & 255].join('.'). -/
def intToIP (int : Int) : String :=
  String.mk (jsIntToString (jsAndU (jsShrU int 24) 255) ++ '.' ::
    (jsIntToString (jsAndU (jsShrU int 16) 255) ++ '.' ::
      (jsIntToString (jsAndU (jsShrU int 8) 255) ++ '.' ::
        jsIntToString (jsAndU int 255))))

/-- SubnetEngine.prefixToMask: intToIP((0xFFFFFFFF << (32 - prefix)) >>> 0).
Because the shift count is taken mod 32, prefix 0 shifts by 0 and yields the
all-ones mask. -/
def prefixToMask (p : Int) : String := intToIP (jsShrU (jsShl 4294967295 (32 - p)) 0)

/-- SubnetEngine.getNetworkAddress: intToIP((ipToInt(ip) & maskInt) >>> 0)
with maskInt the same shifted mask expression as in prefixToMask. -/
def getNetworkAddress (ip : String) (p : Int) : String :=
  let ipInt := ipToInt ip
  let maskInt := jsShrU (jsShl 4294967295 (32 - p)) 0
  intToIP (jsAndU ipInt maskInt)

/-- SubnetEngine.getBroadcastAddress: network | (0xFFFFFFFF >>> prefix),
the result >>> 0. With the mod-32 shift count, prefix 32 yields host mask
0xFFFFFFFF rather than 0. -/
def getBroadcastAddress (ip : String) (p : Int) : String :=
  let networkInt := ipToInt (getNetworkAddress ip p)
  let hostMask := jsShrU (jsShrU 4294967295 p) 0
  intToIP (jsOrU networkInt hostMask)

/-- SubnetEngine.getFirstUsable: intToIP((ipToInt(networkAddr) + 1) >>> 0). -/
def getFirstUsable (networkAddr : String) : String :=
  intToIP (jsShrU (ipToInt networkAddr + 1) 0)

/-- SubnetEngine.getLastUsable: intToIP((ipToInt(broadcastAddr) - 1) >>> 0). -/
def getLastUsable (broadcastAddr : String) : String :=
  intToIP (jsShrU (ipToInt broadcastAddr - 1) 0)

/-- SubnetEngine.getUsableHosts: 0 for prefix >= 31, else 2^(32-prefix) - 2.
Math.pow(2, 32 - prefix) is an exact float for every prefix in [0, 32]. -/
def getUsableHosts (p : Int) : Int :=
  if 31 ≤ p then 0 else 2 ^ ((32 - p).toNat) - 2

/-- SubnetEngine.getTotalAddresses: Math.pow(2, 32 - prefix), exact for the
validated prefixes in [0, 32] that reach it. -/
def getTotalAddresses (p : Int) : Int := 2 ^ ((32 - p).toNat)

/-- SubnetEngine.getNetworkClass: classification by
parseInt(ip.split('.')[0], 10); every range check is false for NaN, which
falls through to Unknown. -/
def getNetworkClass (ip : String) : String :=
  match jsParseInt10 ((jsSplit '.' ip.data).headI) with
  | none => "Unknown"
  | some f =>
    if 1 ≤ f ∧ f ≤ 126 then "A"
    else if 128 ≤ f ∧ f ≤ 191 then "B"
    else if 192 ≤ f ∧ f ≤ 223 then "C"
    else if 224 ≤ f ∧ f ≤ 239 then "D (Multicast)"
    else if 240 ≤ f ∧ f ≤ 255 then "E (Reserved)"
    else "Unknown"

/-- One row of SubnetEngine.calculateSubnets' result. The source object
key named prefix is called pfx here. -/
structure Subnet where
  subnetNumber : Int
  networkAddress : String
  broadcastAddress : String
  firstUsable : String
  lastUsable : String
  usableHosts : Int
  subnetMask : String
  pfx : Int
  totalAddresses : Int
deriving DecidableEq, Repr

instance {e a : Type} [DecidableEq e] [DecidableEq a] : DecidableEq (Except e a) := fun x y =>
  match x, y with
  | .error u, .error v => decidable_of_iff (u = v) (by simp)
  | .ok u, .ok v => decidable_of_iff (u = v) (by simp)
  | .error _, .ok _ => isFalse (by simp)
  | .ok _, .error _ => isFalse (by simp)

/-- The subnet object the source builds for the single-network case of
calculateSubnets (newPrefix null or equal to basePrefix). -/
def singleNetworkSubnet (baseIP : String) (p : Int) : Subnet :=
  { subnetNumber := 1
    networkAddress := getNetworkAddress baseIP p
    broadcastAddress := getBroadcastAddress baseIP p
    firstUsable := getFirstUsable (getNetworkAddress baseIP p)
    lastUsable := getLastUsable (getBroadcastAddress baseIP p)
    usableHosts := getUsableHosts p
    subnetMask := prefixToMask p
    pfx := p
    totalAddresses := getTotalAddresses p }

/-- The body of the enumeration loop of SubnetEngine.calculateSubnets
(named here so that facts about single rows can be stated): the i-th row,
built from the base network integer, the subnet size and the new prefix. -/
def splitSubnetRow (baseNetworkInt subnetSize np : Int) (i : Nat) : Subnet :=
  let subnetNetworkInt := jsShrU (baseNetworkInt + (i : Int) * subnetSize) 0
  { subnetNumber := (i : Int) + 1
    networkAddress := intToIP subnetNetworkInt
    broadcastAddress := intToIP (jsShrU (subnetNetworkInt + subnetSize - 1) 0)
    firstUsable := getFirstUsable (intToIP subnetNetworkInt)
    lastUsable := getLastUsable (intToIP (jsShrU (subnetNetworkInt + subnetSize - 1) 0))
    usableHosts := getUsableHosts np
    subnetMask := prefixToMask np
    pfx := np
    totalAddresses := getTotalAddresses np }

/-- SubnetEngine.calculateSubnets. Throwing is modelled with Except and the
null newPrefix argument with none; the source's single test
(newPrefix === null || newPrefix === basePrefix) is spelled across the two
Option cases. -/
def calculateSubnets (baseIP : String) (basePfx : Int) (newPfx : Option Int) :
    Except String (List Subnet) :=
  if isValidIP baseIP = false then .error "Invalid IP address"
  else if isValidPrefixLength basePfx = false then .error "Invalid base prefix"
  else
    match newPfx with
    | none => .ok [singleNetworkSubnet baseIP basePfx]
    | some np =>
      if np = basePfx then .ok [singleNetworkSubnet baseIP basePfx]
      else if isValidPrefixLength np = false then .error "Invalid new prefix"
      else if np ≤ basePfx then .error "New prefix must be larger than base prefix"
      else
        let baseNetworkInt := ipToInt (getNetworkAddress baseIP basePfx)
        let subnetSize : Int := 2 ^ ((32 - np).toNat)
        let numSubnets : Nat := 2 ^ ((np - basePfx).toNat)
        .ok ((List.range numSubnets).map (splitSubnetRow baseNetworkInt subnetSize np))

/-- The default row used with List.getD when stating facts about subnet
lists whose length is known separately. -/
def defaultSubnet : Subnet :=
  { subnetNumber := 0, networkAddress := "", broadcastAddress := "", firstUsable := "",
    lastUsable := "", usableHosts := 0, subnetMask := "", pfx := 0, totalAddresses := 0 }

/-- Joining segments back with the separator, the inverse of jsSplit. -/
def joinSep (sep : Char) : List (List Char) → List Char
  | [] => []
  | [x] => x
  | x :: y :: xs => x ++ sep :: joinSep sep (y :: xs)

/-- The four-octet character form of a dotted-decimal address. -/
def mkIPData (a b c d : Nat) : List Char :=
  natDecRepr a ++ '.' :: (natDecRepr b ++ '.' :: (natDecRepr c ++ '.' :: natDecRepr d))

/-- The first-octet classification exactly as the claim states it; the code
renders class D as "D (Multicast)" and class E as "E (Reserved)". -/
def classOfFirstOctet (f : Nat) : String :=
  if 1 ≤ f ∧ f ≤ 126 then "A"
  else if 128 ≤ f ∧ f ≤ 191 then "B"
  else if 192 ≤ f ∧ f ≤ 223 then "C"
  else if 224 ≤ f ∧ f ≤ 239 then "D (Multicast)"
  else if 240 ≤ f ∧ f ≤ 255 then "E (Reserved)"
  else "Unknown"

/-- Numeric value of the first dot-separated segment of an address (0 when
it does not parse, which cannot happen for a valid address). -/
def firstOctetVal (s : String) : Nat :=
  ((jsParseInt10 ((jsSplit '.' s.data).headI)).getD 0).toNat

/-- The rows of a split calculation, empty on error. -/
def enumeratedSubnets (ip : String) (b t : Int) : List Subnet :=
  (calculateSubnets ip b (some t)).toOption.getD []

/-! Arithmetic facts about the 32-bit coercions. -/

theorem toUint32_nonneg (n : Int) : 0 ≤ toUint32 n :=
  Int.emod_nonneg n (by norm_num)

theorem toUint32_lt (n : Int) : toUint32 n < 4294967296 :=
  Int.emod_lt_of_pos n (by norm_num)

theorem toUint32_eq_of_lt {n : Int} (h0 : 0 ≤ n) (h : n < 4294967296) : toUint32 n = n :=
  Int.emod_eq_of_lt h0 h

theorem toInt32_of_lt {x : Int} (h0 : 0 ≤ x) (h : x < 2147483648) : toInt32 x = x := by
  simp only [toInt32, toUint32]
  split <;> omega

theorem toUint32_toInt32_add (y c : Int) : toUint32 (toInt32 y + c) = toUint32 (y + c) := by
  simp only [toInt32, toUint32]
  split <;> omega

theorem jsShrU_zero (a : Int) : jsShrU a 0 = toUint32 a := by
  simp only [jsShrU, toUint32]
  norm_num
  omega

theorem ipToInt_nonneg (s : String) : 0 ≤ ipToInt s := by
  simp only [ipToInt]
  rw [jsShrU_zero]
  exact toUint32_nonneg _

theorem ipToInt_lt (s : String) : ipToInt s < 4294967296 := by
  simp only [ipToInt]
  rw [jsShrU_zero]
  exact toUint32_lt _

/-! Facts about decimal rendering of octet values, settled by evaluation
over the 256 possible octets. -/

theorem natDecRepr_parse : ∀ n < 256, jsParseInt10 (natDecRepr n) = some (n : Int) := by decide

theorem natDecRepr_ne_dot : ∀ n < 256, ∀ c ∈ natDecRepr n, c ≠ '.' := by decide

theorem jsIntToString_of_nonneg {n : Int} (h : 0 ≤ n) : jsIntToString n = natDecRepr n.toNat := by
  simp [jsIntToString, Int.not_lt.mpr h]

/-! The split of a character list and its inverse. -/

theorem jsSplit_ne_nil (sep : Char) (l : List Char) : jsSplit sep l ≠ [] := by
  induction l with
  | nil => simp [jsSplit]
  | cons c cs ih =>
    rw [jsSplit]
    split
    · simp
    · match h : jsSplit sep cs with
      | [] => exact absurd h ih
      | s :: ss => simp

theorem jsSplit_sepFree (sep : Char) (l : List Char) (h : ∀ c ∈ l, c ≠ sep) :
    jsSplit sep l = [l] := by
  induction l with
  | nil => rfl
  | cons c cs ih =>
    rw [jsSplit]
    rw [if_neg (h c (by simp))]
    rw [ih (fun x hx => h x (by simp [hx]))]

theorem jsSplit_append (sep : Char) (xs ys : List Char) (h : ∀ c ∈ xs, c ≠ sep) :
    jsSplit sep (xs ++ sep :: ys) = xs :: jsSplit sep ys := by
  induction xs with
  | nil =>
    rw [List.nil_append, jsSplit, if_pos rfl]
  | cons c cs ih =>
    rw [List.cons_append, jsSplit, if_neg (h c (by simp))]
    rw [ih (fun x hx => h x (by simp [hx]))]


theorem joinSep_jsSplit (sep : Char) (l : List Char) : joinSep sep (jsSplit sep l) = l := by
  induction l with
  | nil => rfl
  | cons c cs ih =>
    rw [jsSplit]
    split
    case isTrue hc =>
      subst hc
      match h : jsSplit c cs with
      | [] => exact absurd h (jsSplit_ne_nil c cs)
      | s :: ss =>
        rw [h] at ih
        rw [joinSep, List.nil_append, ih]
    case isFalse hc =>
      match h : jsSplit sep cs with
      | [] => exact absurd h (jsSplit_ne_nil sep cs)
      | [s] =>
        rw [h] at ih
        rw [joinSep] at ih ⊢
        rw [ih]
      | s :: s' :: ss =>
        rw [h] at ih
        rw [joinSep] at ih ⊢
        rw [List.cons_append, ih]


theorem data_mk (l : List Char) : (String.mk l).data = l := rfl

theorem jsSplit_mkIPData {a b c d : Nat} (ha : a < 256) (hb : b < 256) (hc : c < 256)
    (hd : d < 256) :
    jsSplit '.' (mkIPData a b c d) =
      [natDecRepr a, natDecRepr b, natDecRepr c, natDecRepr d] := by
  unfold mkIPData
  rw [jsSplit_append _ _ _ (natDecRepr_ne_dot a ha),
    jsSplit_append _ _ _ (natDecRepr_ne_dot b hb),
    jsSplit_append _ _ _ (natDecRepr_ne_dot c hc),
    jsSplit_sepFree _ _ (natDecRepr_ne_dot d hd)]

/-- A string passes isValidIP exactly when it splits into four segments,
each the canonical decimal rendering of an octet value (which then parses
back to that value). -/
theorem isValidIP_iff (s : String) :
    isValidIP s = true ↔
      (jsSplit '.' s.data).length = 4 ∧
        ∀ seg ∈ jsSplit '.' s.data, ∃ n : Nat, n ≤ 255 ∧ jsParseInt10 seg = some (n : Int) ∧
          seg = natDecRepr n := by
  simp only [isValidIP]
  split
  case isTrue h => simp [h]
  case isFalse h =>
    have hlen : (jsSplit '.' s.data).length = 4 := by omega
    rw [List.all_eq_true]
    constructor
    · intro hall
      refine ⟨hlen, fun seg hseg => ?_⟩
      have hchk := hall seg hseg
      revert hchk
      cases hp : jsParseInt10 seg with
      | none => simp
      | some num =>
        intro hchk
        simp only [Bool.and_eq_true, decide_eq_true_eq, beq_iff_eq] at hchk
        obtain ⟨⟨hge, hle⟩, hstr⟩ := hchk
        refine ⟨num.toNat, by omega, ?_, ?_⟩
        · rw [Int.toNat_of_nonneg hge]
        · rw [hstr, jsIntToString_of_nonneg hge]
    · rintro ⟨_, hseg⟩ seg hsegmem
      obtain ⟨n, hn, hparse, hrepr⟩ := hseg seg hsegmem
      simp only [hparse]
      have : jsIntToString (n : Int) = natDecRepr n := by
        rw [jsIntToString_of_nonneg (by positivity)]
        simp
      simp [this, hrepr]
      omega

theorem jsShl_small {a : Int} (h0 : 0 ≤ a) (h : a < 8388608) : jsShl a 8 = a * 256 := by
  have h8 : ((toUint32 8).toNat % 32) = 8 := by decide
  simp only [jsShl, h8]
  rw [toInt32_of_lt h0 (by omega)]
  rw [show (2 : Int) ^ 8 = 256 by norm_num]
  rw [toInt32_of_lt (by positivity) (by omega)]

theorem jsShl8_toInt32 {a : Int} (h0 : 0 ≤ a) (h : a < 2147483648) :
    jsShl a 8 = toInt32 (a * 256) := by
  have h8 : ((toUint32 8).toNat % 32) = 8 := by decide
  simp only [jsShl, h8]
  rw [toInt32_of_lt h0 h]
  norm_num

theorem ipToInt_mkIPData {n0 n1 n2 n3 : Nat} (h0 : n0 < 256) (h1 : n1 < 256) (h2 : n2 < 256)
    (h3 : n3 < 256) :
    ipToInt (String.mk (mkIPData n0 n1 n2 n3)) =
      ((n0 * 16777216 + n1 * 65536 + n2 * 256 + n3 : Nat) : Int) := by
  simp only [ipToInt, data_mk]
  rw [jsSplit_mkIPData h0 h1 h2 h3]
  simp only [List.foldl_cons, List.foldl_nil, natDecRepr_parse n0 h0, natDecRepr_parse n1 h1,
    natDecRepr_parse n2 h2, natDecRepr_parse n3 h3, JSNum.toI]
  have e0 : jsShl 0 8 + (n0 : Int) = ((n0 : Nat) : Int) := by
    rw [jsShl_small le_rfl (by norm_num)]
    ring
  rw [e0]
  have e1 : jsShl ((n0 : Nat) : Int) 8 + (n1 : Int) = ((n0 * 256 + n1 : Nat) : Int) := by
    rw [jsShl_small (by positivity) (by omega)]
    push_cast
    ring
  rw [e1]
  have e2 : jsShl ((n0 * 256 + n1 : Nat) : Int) 8 + (n2 : Int) =
      ((n0 * 65536 + n1 * 256 + n2 : Nat) : Int) := by
    rw [jsShl_small (by positivity) (by omega)]
    push_cast
    ring
  rw [e2]
  have e3 : jsShl ((n0 * 65536 + n1 * 256 + n2 : Nat) : Int) 8 =
      toInt32 (((n0 * 65536 + n1 * 256 + n2 : Nat) : Int) * 256) :=
    jsShl8_toInt32 (by omega) (by omega)
  rw [e3, jsShrU_zero, toUint32_toInt32_add]
  have e4 : toUint32 (((n0 * 65536 + n1 * 256 + n2 : Nat) : Int) * 256 + (n3 : Int)) =
      ((n0 * 65536 + n1 * 256 + n2 : Nat) : Int) * 256 + (n3 : Int) :=
    toUint32_eq_of_lt (by omega) (by omega)
  rw [e4]
  push_cast
  ring

theorem jsShrU_nat (x k : Nat) (hx : x < 4294967296) (hk : k < 32) :
    jsShrU (x : Int) (k : Int) = ((x / 2 ^ k : Nat) : Int) := by
  simp only [jsShrU]
  rw [toUint32_eq_of_lt (by omega) (by omega), toUint32_eq_of_lt (by omega) (by omega)]
  rw [Int.toNat_ofNat, Int.toNat_ofNat, Nat.mod_eq_of_lt hk, Nat.shiftRight_eq_div_pow]

theorem jsAndU_nat (x y : Nat) (hx : x < 4294967296) (hy : y < 4294967296) :
    jsAndU (x : Int) (y : Int) = ((x &&& y : Nat) : Int) := by
  simp only [jsAndU]
  rw [toUint32_eq_of_lt (by omega) (by omega), toUint32_eq_of_lt (by omega) (by omega)]
  rw [Int.toNat_ofNat, Int.toNat_ofNat]

theorem jsOrU_nat (x y : Nat) (hx : x < 4294967296) (hy : y < 4294967296) :
    jsOrU (x : Int) (y : Int) = ((x ||| y : Nat) : Int) := by
  simp only [jsOrU]
  rw [toUint32_eq_of_lt (by omega) (by omega), toUint32_eq_of_lt (by omega) (by omega)]
  rw [Int.toNat_ofNat, Int.toNat_ofNat]

theorem jsAndU_255 (x : Nat) (hx : x < 4294967296) :
    jsAndU (x : Int) 255 = ((x % 256 : Nat) : Int) := by
  have h255 : ((255 : Nat) : Int) = (255 : Int) := by norm_num
  rw [← h255, jsAndU_nat x 255 hx (by norm_num)]
  congr 1
  rw [show (255 : Nat) = 2 ^ 8 - 1 by norm_num, Nat.and_pow_two_sub_one_eq_mod]

theorem intToIP_eval (n : Int) (h0 : 0 ≤ n) (h : n < 4294967296) :
    intToIP n = String.mk (mkIPData (n.toNat / 16777216 % 256) (n.toNat / 65536 % 256)
      (n.toNat / 256 % 256) (n.toNat % 256)) := by
  obtain ⟨m, rfl⟩ : ∃ m : Nat, n = (m : Int) := ⟨n.toNat, (Int.toNat_of_nonneg h0).symm⟩
  have hm : m < 4294967296 := by omega
  simp only [intToIP, mkIPData, Int.toNat_ofNat]
  have hshr : ∀ k : Nat, k < 32 → jsShrU (m : Int) (k : Int) = ((m / 2 ^ k : Nat) : Int) :=
    fun k hk => jsShrU_nat m k hm hk
  rw [show (24 : Int) = ((24 : Nat) : Int) by norm_num, hshr 24 (by norm_num)]
  rw [show (16 : Int) = ((16 : Nat) : Int) by norm_num, hshr 16 (by norm_num)]
  rw [show (8 : Int) = ((8 : Nat) : Int) by norm_num, hshr 8 (by norm_num)]
  rw [jsAndU_255 _ (by omega), jsAndU_255 _ (by omega), jsAndU_255 _ (by omega),
    jsAndU_255 m hm]
  rw [jsIntToString_of_nonneg (by omega), jsIntToString_of_nonneg (by omega),
    jsIntToString_of_nonneg (by omega), jsIntToString_of_nonneg (by omega)]
  simp only [Int.toNat_ofNat]
  norm_num

theorem ipToInt_intToIP (n : Int) (h0 : 0 ≤ n) (h : n < 4294967296) :
    ipToInt (intToIP n) = n := by
  rw [intToIP_eval n h0 h]
  rw [ipToInt_mkIPData (by omega) (by omega) (by omega) (by omega)]
  omega

theorem valid_parts (s : String) (h : isValidIP s = true) :
    ∃ n0 n1 n2 n3 : Nat, n0 ≤ 255 ∧ n1 ≤ 255 ∧ n2 ≤ 255 ∧ n3 ≤ 255 ∧
      s.data = mkIPData n0 n1 n2 n3 ∧
      jsSplit '.' s.data = [natDecRepr n0, natDecRepr n1, natDecRepr n2, natDecRepr n3] := by
  obtain ⟨hlen, hseg⟩ := (isValidIP_iff s).mp h
  rcases hL : jsSplit '.' s.data with _ | ⟨A, _ | ⟨B, _ | ⟨C, _ | ⟨D, _ | ⟨E, tl⟩⟩⟩⟩⟩ <;>
    rw [hL] at hlen <;> simp only [List.length] at hlen <;> try omega
  obtain ⟨n0, hn0, _, hA⟩ := hseg A (by rw [hL]; simp)
  obtain ⟨n1, hn1, _, hB⟩ := hseg B (by rw [hL]; simp)
  obtain ⟨n2, hn2, _, hC⟩ := hseg C (by rw [hL]; simp)
  obtain ⟨n3, hn3, _, hD⟩ := hseg D (by rw [hL]; simp)
  refine ⟨n0, n1, n2, n3, hn0, hn1, hn2, hn3, ?_, ?_⟩
  · have hj := (joinSep_jsSplit '.' s.data).symm
    rw [hL] at hj
    rw [hj]
    simp only [joinSep, mkIPData, hA, hB, hC, hD]
  · rw [hA, hB, hC, hD]

theorem intToIP_ipToInt (s : String) (h : isValidIP s = true) : intToIP (ipToInt s) = s := by
  obtain ⟨n0, n1, n2, n3, h0, h1, h2, h3, hdata, _⟩ := valid_parts s h
  have hs : s = String.mk (mkIPData n0 n1 n2 n3) := by
    have he : String.mk s.data = s := rfl
    rw [← he, hdata]
  rw [hs, ipToInt_mkIPData (by omega) (by omega) (by omega) (by omega)]
  rw [intToIP_eval _ (by omega) (by omega)]
  refine congrArg String.mk ?_
  simp only [Int.toNat_ofNat]
  have e0 : (n0 * 16777216 + n1 * 65536 + n2 * 256 + n3) / 16777216 % 256 = n0 := by omega
  have e1 : (n0 * 16777216 + n1 * 65536 + n2 * 256 + n3) / 65536 % 256 = n1 := by omega
  have e2 : (n0 * 16777216 + n1 * 65536 + n2 * 256 + n3) / 256 % 256 = n2 := by omega
  have e3 : (n0 * 16777216 + n1 * 65536 + n2 * 256 + n3) % 256 = n3 := by omega
  rw [e0, e1, e2, e3]

/-! The prefix mask, the network address and the host mask, for the prefix
ranges where the mod-32 shift counts do not wrap. -/

theorem mask_eval (p : Int) (h1 : 1 ≤ p) (h2 : p ≤ 32) :
    jsShrU (jsShl 4294967295 (32 - p)) 0 =
      ((4294967296 - 2 ^ ((32 - p).toNat) : Nat) : Int) := by
  set k := (32 - p).toNat with hk
  have hk31 : k ≤ 31 := by omega
  have hpow : (2 : Int) ^ k ≤ 2147483648 := by
    calc (2 : Int) ^ k ≤ 2 ^ 31 := pow_le_pow_right₀ (by norm_num) hk31
    _ = 2147483648 := by norm_num
  have hpow0 : (0 : Int) < 2 ^ k := by positivity
  have hcnt : ((toUint32 (32 - p)).toNat % 32) = k := by
    rw [toUint32_eq_of_lt (by omega) (by omega)]
    omega
  simp only [jsShl, hcnt]
  have hm1 : toInt32 4294967295 = -1 := by decide
  rw [hm1]
  have hsh : toInt32 (-1 * 2 ^ k) = -(2 : Int) ^ k := by
    simp only [toInt32, toUint32]
    split <;> omega
  rw [hsh, jsShrU_zero]
  have hval : toUint32 (-(2 : Int) ^ k) = 4294967296 - 2 ^ k := by
    simp only [toUint32]
    omega
  rw [hval]
  have h2kN : (2 : Nat) ^ k ≤ 4294967296 := by
    calc (2 : Nat) ^ k ≤ 2 ^ 31 := Nat.pow_le_pow_right (by norm_num) hk31
    _ ≤ 4294967296 := by norm_num
  rw [Nat.cast_sub h2kN]
  push_cast
  ring

theorem land_highmask (x k : Nat) (hk : k ≤ 32) (hx : x < 4294967296) :
    x &&& (4294967296 - 2 ^ k) = x / 2 ^ k * 2 ^ k := by
  have hmask : (4294967296 - 2 ^ k : Nat) = (2 ^ (32 - k) - 1) <<< k := by
    rw [Nat.shiftLeft_eq, Nat.sub_mul, one_mul]
    have hp : (2 : Nat) ^ (32 - k) * 2 ^ k = 4294967296 := by
      rw [← pow_add, show 32 - k + k = 32 from by omega]
      norm_num
    rw [hp]
  have hdiv : x / 2 ^ k * 2 ^ k = (x >>> k) <<< k := by
    rw [Nat.shiftLeft_eq, Nat.shiftRight_eq_div_pow]
  rw [hmask, hdiv]
  apply Nat.eq_of_testBit_eq
  intro i
  rw [Nat.testBit_and, Nat.testBit_shiftLeft, Nat.testBit_shiftLeft, Nat.testBit_shiftRight,
    Nat.testBit_two_pow_sub_one]
  by_cases hik : k ≤ i
  · have h3 : k + (i - k) = i := by omega
    rw [h3]
    by_cases hi32 : i < 32
    · have h2 : i - k < 32 - k := by omega
      simp [ge_iff_le, hik, h2]
    · have hxi : x.testBit i = false := Nat.testBit_lt_two_pow (by
        calc x < 4294967296 := hx
        _ = 2 ^ 32 := by norm_num
        _ ≤ 2 ^ i := Nat.pow_le_pow_right (by norm_num) (by omega))
      have h2 : ¬(i - k < 32 - k) := by omega
      simp [ge_iff_le, hik, h2, hxi]
  · simp [ge_iff_le, hik]

theorem aligned_add_le (x k : Nat) (hk : k ≤ 32) (hx : x < 4294967296) :
    x / 2 ^ k * 2 ^ k + 2 ^ k ≤ 4294967296 := by
  have h3 : (2 : Nat) ^ (32 - k) * 2 ^ k = 4294967296 := by
    rw [← pow_add, show 32 - k + k = 32 from by omega]
    norm_num
  have h1 : x / 2 ^ k < 2 ^ (32 - k) := by
    apply Nat.div_lt_of_lt_mul
    calc x < 4294967296 := hx
    _ = 2 ^ k * 2 ^ (32 - k) := by rw [mul_comm]; exact h3.symm
  have h2 : (x / 2 ^ k + 1) * 2 ^ k ≤ 2 ^ (32 - k) * 2 ^ k :=
    Nat.mul_le_mul_right _ (by omega)
  calc x / 2 ^ k * 2 ^ k + 2 ^ k = (x / 2 ^ k + 1) * 2 ^ k := by ring
  _ ≤ 2 ^ (32 - k) * 2 ^ k := h2
  _ = 4294967296 := h3

theorem getNetworkAddress_int (ip : String) (p : Int) (h1 : 1 ≤ p) (h2 : p ≤ 32) :
    ipToInt (getNetworkAddress ip p) =
      (((ipToInt ip).toNat / 2 ^ ((32 - p).toNat) * 2 ^ ((32 - p).toNat) : Nat) : Int) := by
  have hlt := ipToInt_lt ip
  have hnn := ipToInt_nonneg ip
  have hk1 : (1 : Nat) ≤ 2 ^ ((32 - p).toNat) := Nat.one_le_two_pow
  simp only [getNetworkAddress]
  rw [mask_eval p h1 h2]
  obtain ⟨m, hm⟩ : ∃ m : Nat, ipToInt ip = (m : Int) :=
    ⟨(ipToInt ip).toNat, (Int.toNat_of_nonneg hnn).symm⟩
  rw [hm]
  have hmlt : m < 4294967296 := by omega
  rw [jsAndU_nat m _ hmlt (by omega)]
  rw [land_highmask m _ (by omega) hmlt]
  have hle : m / 2 ^ ((32 - p).toNat) * 2 ^ ((32 - p).toNat) ≤ m := Nat.div_mul_le_self m _
  rw [ipToInt_intToIP _ (by omega) (by omega), Int.toNat_ofNat]

/-- The network address integer of a valid computation: a block-aligned
value that fits the address space together with its whole block. -/
theorem getNetworkAddress_facts (ip : String) (p : Int) (h1 : 1 ≤ p) (h2 : p ≤ 32) :
    ∃ N : Nat, ipToInt (getNetworkAddress ip p) = (N : Int) ∧
      N % 2 ^ ((32 - p).toNat) = 0 ∧ N + 2 ^ ((32 - p).toNat) ≤ 4294967296 := by
  have hlt := ipToInt_lt ip
  have hnn := ipToInt_nonneg ip
  exact ⟨(ipToInt ip).toNat / 2 ^ ((32 - p).toNat) * 2 ^ ((32 - p).toNat),
    getNetworkAddress_int ip p h1 h2, Nat.mul_mod_left _ _,
    aligned_add_le _ _ (by omega) (by omega)⟩

theorem pow32_sub_one_div (j : Nat) (hj : j ≤ 32) :
    (4294967295 : Nat) / 2 ^ j = 2 ^ (32 - j) - 1 := by
  have h1j : (1 : Nat) ≤ 2 ^ j := Nat.one_le_two_pow
  have h1A : (1 : Nat) ≤ 2 ^ (32 - j) := Nat.one_le_two_pow
  have hA : (2 : Nat) ^ j * 2 ^ (32 - j) = 4294967296 := by
    rw [← pow_add, show j + (32 - j) = 32 from by omega]
    norm_num
  have hj2 : (2 : Nat) ^ j ≤ 4294967296 := by
    calc (2 : Nat) ^ j ≤ 2 ^ 32 := Nat.pow_le_pow_right (by norm_num) hj
    _ = 4294967296 := by norm_num
  have hp : (2 : Nat) ^ j * (2 ^ (32 - j) - 1) + (2 ^ j - 1) = 4294967295 := by
    rw [Nat.sub_one (2 ^ (32 - j)), Nat.mul_pred, hA]
    omega
  rw [← hp, Nat.mul_add_div (by omega), Nat.div_eq_of_lt (by omega)]
  omega

theorem hostMask_eval (p : Int) (h0 : 0 ≤ p) (h31 : p ≤ 31) :
    jsShrU (jsShrU 4294967295 p) 0 = ((2 ^ ((32 - p).toNat) - 1 : Nat) : Int) := by
  have hc : (toUint32 p).toNat % 32 = p.toNat := by
    rw [toUint32_eq_of_lt h0 (by omega)]
    omega
  have hlit : (toUint32 4294967295).toNat = 4294967295 := by decide
  have h1 : jsShrU 4294967295 p = ((4294967295 / 2 ^ p.toNat : Nat) : Int) := by
    simp only [jsShrU, hc, hlit]
    rw [Nat.shiftRight_eq_div_pow]
  have hE : 32 - p.toNat = (32 - p).toNat := by omega
  have hb : (2 : Nat) ^ ((32 - p).toNat) - 1 < 4294967296 := by
    have : (2 : Nat) ^ ((32 - p).toNat) ≤ 2 ^ 32 := Nat.pow_le_pow_right (by norm_num) (by omega)
    omega
  rw [h1, jsShrU_zero, pow32_sub_one_div p.toNat (by omega), hE,
    toUint32_eq_of_lt (by omega) (by omega)]

theorem le_lor_right (x y : Nat) : y ≤ x ||| y :=
  Nat.le_of_testBit (fun i h => by rw [Nat.testBit_or, h, Bool.or_true])

/-! The two result shapes of calculateSubnets. -/

theorem calculateSubnets_single (ip : String) (p : Int) (hip : isValidIP ip = true)
    (hp : isValidPrefixLength p = true) :
    calculateSubnets ip p none = .ok [singleNetworkSubnet ip p] ∧
    calculateSubnets ip p (some p) = .ok [singleNetworkSubnet ip p] := by
  constructor <;> simp [calculateSubnets, hip, hp]

theorem calculateSubnets_split (ip : String) (b t : Int) (hip : isValidIP ip = true)
    (hb0 : 0 ≤ b) (hbt : b < t) (ht : t ≤ 32) :
    calculateSubnets ip b (some t) =
      .ok ((List.range (2 ^ ((t - b).toNat))).map
        (splitSubnetRow (ipToInt (getNetworkAddress ip b)) (2 ^ ((32 - t).toNat)) t)) := by
  have hpb : isValidPrefixLength b = true := by
    simp only [isValidPrefixLength, Bool.and_eq_true, decide_eq_true_eq]
    omega
  have hpt : isValidPrefixLength t = true := by
    simp only [isValidPrefixLength, Bool.and_eq_true, decide_eq_true_eq]
    omega
  have hne : ¬(t = b) := by omega
  have hle : ¬(t ≤ b) := by omega
  simp [calculateSubnets, hip, hpb, hpt, hne, hle]

/-- Field values of one enumeration row whose block lies inside the address
space: no 32-bit wraparound happens, so the row's network and broadcast
integers are exactly base + i*size and base + i*size + (size - 1). -/
theorem splitSubnetRow_fields (N B np : Int) (i : Nat) (hN : 0 ≤ N) (hB : 1 ≤ B)
    (hbound : N + ((i : Int) + 1) * B ≤ 4294967296) :
    ipToInt ((splitSubnetRow N B np i).networkAddress) = N + (i : Int) * B ∧
    ipToInt ((splitSubnetRow N B np i).broadcastAddress) = N + (i : Int) * B + (B - 1) ∧
    (splitSubnetRow N B np i).subnetNumber = (i : Int) + 1 ∧
    (splitSubnetRow N B np i).pfx = np := by
  have hexp : ((i : Int) + 1) * B = (i : Int) * B + B := by ring
  have hiB : 0 ≤ (i : Int) * B := by positivity
  have h1 : jsShrU (N + (i : Int) * B) 0 = N + (i : Int) * B := by
    rw [jsShrU_zero, toUint32_eq_of_lt (by omega) (by omega)]
  simp only [splitSubnetRow, h1]
  have hnet : ipToInt (intToIP (N + (i : Int) * B)) = N + (i : Int) * B :=
    ipToInt_intToIP _ (by omega) (by omega)
  have h2 : jsShrU (N + (i : Int) * B + B - 1) 0 = N + (i : Int) * B + B - 1 := by
    rw [jsShrU_zero, toUint32_eq_of_lt (by omega) (by omega)]
  rw [h2]
  have hbrd : ipToInt (intToIP (N + (i : Int) * B + B - 1)) = N + (i : Int) * B + B - 1 :=
    ipToInt_intToIP _ (by omega) (by omega)
  refine ⟨hnet, ?_, by trivial, by trivial⟩
  rw [hbrd]
  ring

/-- First and last usable addresses of an enumeration row with block size at
least 4: the plus-one and minus-one steps stay inside the address space. -/
theorem splitSubnetRow_usable (N B np : Int) (i : Nat) (hN : 0 ≤ N) (hB : 4 ≤ B)
    (hbound : N + ((i : Int) + 1) * B ≤ 4294967296) :
    ipToInt ((splitSubnetRow N B np i).firstUsable) =
      ipToInt ((splitSubnetRow N B np i).networkAddress) + 1 ∧
    ipToInt ((splitSubnetRow N B np i).lastUsable) =
      ipToInt ((splitSubnetRow N B np i).broadcastAddress) - 1 := by
  have hexp : ((i : Int) + 1) * B = (i : Int) * B + B := by ring
  have hiB : 0 ≤ (i : Int) * B := by positivity
  have h1 : jsShrU (N + (i : Int) * B) 0 = N + (i : Int) * B := by
    rw [jsShrU_zero, toUint32_eq_of_lt (by omega) (by omega)]
  have h2 : jsShrU (N + (i : Int) * B + B - 1) 0 = N + (i : Int) * B + B - 1 := by
    rw [jsShrU_zero, toUint32_eq_of_lt (by omega) (by omega)]
  simp only [splitSubnetRow, getFirstUsable, getLastUsable, h1, h2]
  have hnet : ipToInt (intToIP (N + (i : Int) * B)) = N + (i : Int) * B :=
    ipToInt_intToIP _ (by omega) (by omega)
  have hbrd : ipToInt (intToIP (N + (i : Int) * B + B - 1)) = N + (i : Int) * B + B - 1 :=
    ipToInt_intToIP _ (by omega) (by omega)
  rw [hnet, hbrd]
  have h3 : jsShrU (N + (i : Int) * B + 1) 0 = N + (i : Int) * B + 1 := by
    rw [jsShrU_zero, toUint32_eq_of_lt (by omega) (by omega)]
  have h4 : jsShrU (N + (i : Int) * B + B - 1 - 1) 0 = N + (i : Int) * B + B - 1 - 1 := by
    rw [jsShrU_zero, toUint32_eq_of_lt (by omega) (by omega)]
  rw [h3, h4]
  constructor
  · exact ipToInt_intToIP _ (by omega) (by omega)
  · exact ipToInt_intToIP _ (by omega) (by omega)

/-- First and last usable addresses of the single-network row for base
prefixes in [1, 30]: the network integer is block-aligned, so the whole
block sits inside the address space and no wraparound happens. -/
theorem singleNetworkSubnet_usable (ip : String) (p : Int) (h1 : 1 ≤ p) (h30 : p ≤ 30) :
    ipToInt ((singleNetworkSubnet ip p).firstUsable) =
      ipToInt ((singleNetworkSubnet ip p).networkAddress) + 1 ∧
    ipToInt ((singleNetworkSubnet ip p).lastUsable) =
      ipToInt ((singleNetworkSubnet ip p).broadcastAddress) - 1 := by
  obtain ⟨N, hN, hmod, hadd⟩ := getNetworkAddress_facts ip p h1 (by omega)
  set k := (32 - p).toNat with hk
  have hk2 : 2 ≤ k := by omega
  have h4 : 4 ≤ (2 : Nat) ^ k := by
    calc (4 : Nat) = 2 ^ 2 := by norm_num
    _ ≤ 2 ^ k := Nat.pow_le_pow_right (by norm_num) hk2
  have horlt : (N ||| (2 ^ k - 1)) < 4294967296 := by
    rw [show (4294967296 : Nat) = 2 ^ 32 from by norm_num]
    exact Nat.or_lt_two_pow (by omega) (by omega)
  have horpos : 3 ≤ (N ||| (2 ^ k - 1)) :=
    le_trans (by omega) (le_lor_right N (2 ^ k - 1))
  have hbd : ipToInt (getBroadcastAddress ip p) = ((N ||| (2 ^ k - 1) : Nat) : Int) := by
    simp only [getBroadcastAddress]
    rw [hostMask_eval p (by omega) (by omega), hN, ← hk]
    rw [jsOrU_nat N _ (by omega) (by omega)]
    exact ipToInt_intToIP _ (by omega) (by omega)
  simp only [singleNetworkSubnet, getFirstUsable, getLastUsable]
  rw [hN, hbd]
  have h5 : jsShrU ((N : Int) + 1) 0 = (N : Int) + 1 := by
    rw [jsShrU_zero, toUint32_eq_of_lt (by omega) (by omega)]
  have h6 : jsShrU (((N ||| (2 ^ k - 1) : Nat) : Int) - 1) 0 =
      ((N ||| (2 ^ k - 1) : Nat) : Int) - 1 := by
    rw [jsShrU_zero, toUint32_eq_of_lt (by omega) (by omega)]
  rw [h5, h6]
  constructor
  · exact ipToInt_intToIP _ (by omega) (by omega)
  · exact ipToInt_intToIP _ (by omega) (by omega)

/-! Claim theorems. -/

/-- C2 (code_bug evidence): the specification says prefixToMask(0) is
"0.0.0.0" (a mask of zero leading one-bits), but the code returns
"255.255.255.255", because the JavaScript shift count 32 - 0 = 32 is taken
mod 32, so 0xFFFFFFFF << 32 === 0xFFFFFFFF. The spec's other two examples,
prefixToMask(24) = "255.255.255.0" and prefixToMask(32) =
"255.255.255.255", do hold. -/
theorem C2_prefixToMask_zero_bug :
    prefixToMask 0 = "255.255.255.255" ∧ prefixToMask 24 = "255.255.255.0" ∧
    prefixToMask 32 = "255.255.255.255" := by decide

/-- C3 (code_bug evidence): the claim says the broadcast address equals the
network address OR-ed with the host mask 2^(32-p) - 1, so at p = 32 the
broadcast address should equal the network address; but 0xFFFFFFFF >>> 32
shifts by 32 mod 32 = 0, so the code's host mask at p = 32 is 0xFFFFFFFF
and getBroadcastAddress("1.2.3.4", 32) is "255.255.255.255", not
"1.2.3.4". (The enumeration path of calculateSubnets computes a /32 block's
broadcast as network + 2^0 - 1 = network, contradicting this function.) -/
theorem C3_broadcast_prefix32_bug :
    getBroadcastAddress "1.2.3.4" 32 = "255.255.255.255" ∧
    getNetworkAddress "1.2.3.4" 32 = "1.2.3.4" ∧
    ("255.255.255.255" : String) ≠ "1.2.3.4" := by decide

/-- C10: getFirstUsable and getLastUsable wrap modulo 2^32 at the ends of
the address space ((x + 1) >>> 0 and (x - 1) >>> 0), rather than failing or
saturating: the first usable of 255.255.255.255 is 0.0.0.0 and the last
usable of 0.0.0.0 is 255.255.255.255. -/
theorem C10_usable_wraparound :
    getFirstUsable "255.255.255.255" = "0.0.0.0" ∧
    getLastUsable "0.0.0.0" = "255.255.255.255" := by decide


/-- C8: for every valid address, getNetworkClass is determined solely by
the value of the first octet, by the ranges 1-126 to A, 128-191 to B,
192-223 to C, 224-239 to D, 240-255 to E, with 0 and 127 falling through
to Unknown; the result is always one of those six values (the code spells
the D and E values "D (Multicast)" and "E (Reserved)"). -/
theorem C8_network_classification :
    (∀ s : String, isValidIP s = true →
      firstOctetVal s ≤ 255 ∧ getNetworkClass s = classOfFirstOctet (firstOctetVal s)) ∧
    (∀ f : Nat, classOfFirstOctet f = "A" ∨ classOfFirstOctet f = "B" ∨
      classOfFirstOctet f = "C" ∨ classOfFirstOctet f = "D (Multicast)" ∨
      classOfFirstOctet f = "E (Reserved)" ∨ classOfFirstOctet f = "Unknown") ∧
    classOfFirstOctet 0 = "Unknown" ∧ classOfFirstOctet 127 = "Unknown" := by
  refine ⟨?_, ?_, by decide, by decide⟩
  · intro s hs
    obtain ⟨n0, n1, n2, n3, h0, _, _, _, _, hsplit⟩ := valid_parts s hs
    have hparse : jsParseInt10 ((jsSplit '.' s.data).headI) = some ((n0 : Nat) : Int) := by
      rw [hsplit]
      exact natDecRepr_parse n0 (by omega)
    have hval : firstOctetVal s = n0 := by
      simp [firstOctetVal, hparse]
    refine ⟨by omega, ?_⟩
    rw [hval]
    simp only [getNetworkClass, hparse, classOfFirstOctet]
    split_ifs <;> first | rfl | omega
  · intro f
    simp only [classOfFirstOctet]
    split_ifs <;> simp

/-- Witness for C8 at the spec's own example: networkClass("10.0.0.1") is
determined by first octet 10, giving class A. -/
theorem C8_network_classification_witness :
    getNetworkClass "10.0.0.1" = classOfFirstOctet (firstOctetVal "10.0.0.1") ∧
    getNetworkClass "10.0.0.1" = "A" :=
  ⟨(C8_network_classification.1 "10.0.0.1" (by decide)).2, by decide⟩

/-- C7: isValidIP returns true iff the text splits into exactly four
dot-separated segments, each of which parses as a base-10 integer in
[0, 255] whose canonical decimal rendering equals the segment exactly; in
particular "256.1.1.1" (octet out of range) and "192.168.01.0" (leading
zero) are rejected while "192.168.1.0" is accepted. -/
theorem C7_isValidIP_characterization :
    (∀ s : String, isValidIP s = true ↔
      ((jsSplit '.' s.data).length = 4 ∧
        ∀ seg ∈ jsSplit '.' s.data, ∃ n : Nat, n ≤ 255 ∧ jsParseInt10 seg = some (n : Int) ∧
          seg = natDecRepr n)) ∧
    isValidIP "256.1.1.1" = false ∧ isValidIP "192.168.1.0" = true ∧
    isValidIP "192.168.01.0" = false :=
  ⟨isValidIP_iff, by decide, by decide, by decide⟩

/-- Witness for C7: the characterization applied right-to-left at the
address 172.16.0.0, exhibiting the four octet values. -/
theorem C7_isValidIP_characterization_witness : isValidIP "172.16.0.0" = true := by
  apply (C7_isValidIP_characterization.1 "172.16.0.0").mpr
  have hs : jsSplit '.' ("172.16.0.0").data =
      [['1', '7', '2'], ['1', '6'], ['0'], ['0']] := by decide
  refine ⟨by rw [hs]; rfl, ?_⟩
  intro seg hseg
  rw [hs] at hseg
  simp only [List.mem_cons, List.not_mem_nil, or_false] at hseg
  rcases hseg with rfl | rfl | rfl | rfl
  · exact ⟨172, by norm_num, by decide, by decide⟩
  · exact ⟨16, by norm_num, by decide, by decide⟩
  · exact ⟨0, by norm_num, by decide, by decide⟩
  · exact ⟨0, by norm_num, by decide, by decide⟩

/-- C4: the conversions round-trip: intToIP inverts ipToInt on every valid
dotted-decimal text, and ipToInt inverts intToIP on every 32-bit unsigned
integer. -/
theorem C4_conversion_roundtrips :
    (∀ a : String, isValidIP a = true → intToIP (ipToInt a) = a) ∧
    (∀ n : Int, 0 ≤ n → n < 4294967296 → ipToInt (intToIP n) = n) :=
  ⟨fun a ha => intToIP_ipToInt a ha, fun n h0 h1 => ipToInt_intToIP n h0 h1⟩

/-- Witness for C4 at 192.168.1.0 and its integer 3232235776. -/
theorem C4_conversion_roundtrips_witness :
    intToIP (ipToInt "192.168.1.0") = "192.168.1.0" ∧
    ipToInt (intToIP 3232235776) = 3232235776 :=
  ⟨C4_conversion_roundtrips.1 "192.168.1.0" (by decide),
   C4_conversion_roundtrips.2 3232235776 (by norm_num) (by norm_num)⟩

/-- C9: a null target prefix and a target prefix equal to the base prefix
give identical results: the one-element list whose single row carries the
base network's own network address, broadcast address, first and last
usable addresses, usable host count, mask, prefix and total address
count. -/
theorem C9_no_split_null_equivalence (ip : String) (p : Int) (hip : isValidIP ip = true)
    (hp : isValidPrefixLength p = true) :
    calculateSubnets ip p none = calculateSubnets ip p (some p) ∧
    calculateSubnets ip p none = .ok [⟨1, getNetworkAddress ip p, getBroadcastAddress ip p,
      getFirstUsable (getNetworkAddress ip p), getLastUsable (getBroadcastAddress ip p),
      getUsableHosts p, prefixToMask p, p, getTotalAddresses p⟩] := by
  obtain ⟨h1, h2⟩ := calculateSubnets_single ip p hip hp
  exact ⟨h1.trans h2.symm, h1⟩

/-- Witness for C9 at 192.168.1.0/24. -/
theorem C9_no_split_null_equivalence_witness :
    calculateSubnets "192.168.1.0" 24 none = calculateSubnets "192.168.1.0" 24 (some 24) ∧
    calculateSubnets "192.168.1.0" 24 none =
      .ok [⟨1, getNetworkAddress "192.168.1.0" 24, getBroadcastAddress "192.168.1.0" 24,
        getFirstUsable (getNetworkAddress "192.168.1.0" 24),
        getLastUsable (getBroadcastAddress "192.168.1.0" 24),
        getUsableHosts 24, prefixToMask 24, 24, getTotalAddresses 24⟩] :=
  C9_no_split_null_equivalence "192.168.1.0" 24 (by decide) (by decide)

/-- C6: calculateSubnets fails with a distinct message for an invalid
address, an invalid base prefix, an invalid target prefix and a target
prefix smaller than the base prefix (checked in that order); a target
prefix equal to the base prefix is not an error but the single-network
case, identical to passing null. The Except result makes every failure
all-or-nothing: an error carries no rows at all. -/
theorem C6_error_taxonomy (ip : String) (b t : Int) :
    (isValidIP ip = false →
      ∀ np : Option Int, calculateSubnets ip b np = .error "Invalid IP address") ∧
    (isValidIP ip = true → isValidPrefixLength b = false →
      ∀ np : Option Int, calculateSubnets ip b np = .error "Invalid base prefix") ∧
    (isValidIP ip = true → isValidPrefixLength b = true → t ≠ b →
      isValidPrefixLength t = false →
      calculateSubnets ip b (some t) = .error "Invalid new prefix") ∧
    (isValidIP ip = true → isValidPrefixLength b = true → isValidPrefixLength t = true →
      t < b →
      calculateSubnets ip b (some t) = .error "New prefix must be larger than base prefix") ∧
    (isValidIP ip = true → isValidPrefixLength b = true →
      calculateSubnets ip b (some b) = calculateSubnets ip b none ∧
      (calculateSubnets ip b (some b)).isOk = true) := by
  refine ⟨?_, ?_, ?_, ?_, ?_⟩
  · intro h np
    simp [calculateSubnets, h]
  · intro h1 h2 np
    simp [calculateSubnets, h1, h2]
  · intro h1 h2 h3 h4
    simp [calculateSubnets, h1, h2, h3, h4]
  · intro h1 h2 h3 h4
    have hne : ¬(t = b) := by omega
    have hle : t ≤ b := by omega
    simp [calculateSubnets, h1, h2, h3, hne, hle]
  · intro h1 h2
    obtain ⟨ha, hb⟩ := calculateSubnets_single ip b h1 h2
    exact ⟨hb.trans ha.symm, by rw [hb]; rfl⟩

/-- Witness for C6: one concrete input per error case, and the non-error
equal-prefix case. -/
theorem C6_error_taxonomy_witness :
    calculateSubnets "1.2.3.4" 24 (some 8) =
      .error "New prefix must be larger than base prefix" ∧
    calculateSubnets "300.1.2.3" 24 none = .error "Invalid IP address" ∧
    calculateSubnets "1.2.3.4" 40 none = .error "Invalid base prefix" ∧
    calculateSubnets "1.2.3.4" 24 (some 33) = .error "Invalid new prefix" ∧
    (calculateSubnets "1.2.3.4" 24 (some 24)).isOk = true :=
  ⟨(C6_error_taxonomy "1.2.3.4" 24 8).2.2.2.1 (by decide) (by decide) (by decide) (by decide),
   (C6_error_taxonomy "300.1.2.3" 24 0).1 (by decide) none,
   (C6_error_taxonomy "1.2.3.4" 40 0).2.1 (by decide) (by decide) none,
   (C6_error_taxonomy "1.2.3.4" 24 33).2.2.1 (by decide) (by decide) (by decide) (by decide),
   ((C6_error_taxonomy "1.2.3.4" 24 24).2.2.2.2 (by decide) (by decide)).2⟩

theorem isValidPrefixLength_iff (p : Int) : isValidPrefixLength p = true ↔ 0 ≤ p ∧ p ≤ 32 := by
  simp [isValidPrefixLength]

/-- No block of a split with 1 ≤ base < target ≤ 32 leaves the address
space: the end of block i is below 2^32. -/
theorem enumeration_bound (N : Nat) (b t : Int) (i : Nat)
    (_hb : 1 ≤ b) (hbt : b < t) (ht : t ≤ 32)
    (hadd : N + 2 ^ ((32 - b).toNat) ≤ 4294967296)
    (hi : i < 2 ^ ((t - b).toNat)) :
    (N : Int) + ((i : Int) + 1) * 2 ^ ((32 - t).toNat) ≤ 4294967296 := by
  have htb2 : (t - b).toNat + (32 - t).toNat = (32 - b).toNat := by omega
  have hiB : (i + 1) * 2 ^ ((32 - t).toNat) ≤ 2 ^ ((32 - b).toNat) := by
    calc (i + 1) * 2 ^ ((32 - t).toNat)
        ≤ 2 ^ ((t - b).toNat) * 2 ^ ((32 - t).toNat) := Nat.mul_le_mul_right _ (by omega)
    _ = 2 ^ ((32 - b).toNat) := by rw [← pow_add, htb2]
  have hiB' : ((i : Int) + 1) * 2 ^ ((32 - t).toNat) ≤ 2 ^ ((32 - b).toNat) := by
    exact_mod_cast hiB
  have hadd' : (N : Int) + 2 ^ ((32 - b).toNat) ≤ 4294967296 := by exact_mod_cast hadd
  omega

/-- C5 counterexample to the claim as stated over all valid inputs: for the
calculation 255.255.255.255/0 (no split), the shift-by-32 slip leaves the
network address unmasked at 255.255.255.255, and the single produced row of
prefix 0 (which is at most 30) has first-usable integer 0, which is not its
network integer 4294967295 plus one: the +1 wraps around 2^32. -/
theorem C5_counterexample :
    (((calculateSubnets "255.255.255.255" 0 none).toOption.getD []).map
      (fun s => (s.pfx, ipToInt s.firstUsable, ipToInt s.networkAddress))) =
      [(0, 0, 4294967295)] ∧ (0 : Int) ≠ 4294967295 + 1 := by decide

/-- C5 (amended in its last clause to base prefixes of at least 1):
getUsableHosts is 0 for every prefix of at least 31 and 2^(32-p) - 2
otherwise; getTotalAddresses is 2^(32-p); for p at most 30 usable = total
minus 2; and in every row produced by calculateSubnets with base prefix at
least 1 whose prefix is at most 30, the first usable integer is network + 1
and the last usable integer is broadcast - 1. -/
theorem C5_usable_host_counts :
    (∀ p : Int, 0 ≤ p → p ≤ 32 →
      getUsableHosts p = (if 31 ≤ p then 0 else 2 ^ ((32 - p).toNat) - 2) ∧
      getTotalAddresses p = 2 ^ ((32 - p).toNat)) ∧
    (∀ p : Int, 0 ≤ p → p ≤ 30 → getUsableHosts p = getTotalAddresses p - 2) ∧
    (∀ (ip : String) (b : Int) (np : Option Int) (l : List Subnet), 1 ≤ b →
      calculateSubnets ip b np = .ok l →
      ∀ s ∈ l, s.pfx ≤ 30 →
        ipToInt s.firstUsable = ipToInt s.networkAddress + 1 ∧
        ipToInt s.lastUsable = ipToInt s.broadcastAddress - 1) := by
  refine ⟨fun p _ _ => ⟨rfl, rfl⟩, ?_, ?_⟩
  · intro p h0 h30
    have : ¬(31 ≤ p) := by omega
    simp [getUsableHosts, getTotalAddresses, this]
  · intro ip b np l hb hok s hs hp30
    have hip : isValidIP ip = true := by
      by_contra hF
      have hip' : isValidIP ip = false := by
        cases h : isValidIP ip
        · rfl
        · exact absurd h hF
      simp [calculateSubnets, hip'] at hok
    have hbp : isValidPrefixLength b = true := by
      by_contra hF
      have hbp' : isValidPrefixLength b = false := by
        cases h : isValidPrefixLength b
        · rfl
        · exact absurd h hF
      simp [calculateSubnets, hip, hbp'] at hok
    have hbr := (isValidPrefixLength_iff b).mp hbp
    -- the single-network shape
    have hsingle : ∀ lq : List Subnet, lq = [singleNetworkSubnet ip b] →
        s ∈ lq → s.pfx ≤ 30 →
        ipToInt s.firstUsable = ipToInt s.networkAddress + 1 ∧
        ipToInt s.lastUsable = ipToInt s.broadcastAddress - 1 := by
      rintro lq rfl hmem hple
      have hseq : s = singleNetworkSubnet ip b := by
        simpa using hmem
      subst hseq
      have hble : b ≤ 30 := by
        simpa [singleNetworkSubnet] using hple
      exact singleNetworkSubnet_usable ip b hb hble
    cases np with
    | none =>
      obtain ⟨h1, _⟩ := calculateSubnets_single ip b hip hbp
      rw [h1] at hok
      exact hsingle l (by injection hok with h; exact h.symm) hs hp30
    | some t =>
      by_cases hteq : t = b
      · subst hteq
        obtain ⟨_, h2⟩ := calculateSubnets_single ip t hip hbp
        rw [h2] at hok
        exact hsingle l (by injection hok with h; exact h.symm) hs hp30
      · have hpt : isValidPrefixLength t = true := by
          by_contra hF
          have hpt' : isValidPrefixLength t = false := by
            cases h : isValidPrefixLength t
            · rfl
            · exact absurd h hF
          simp [calculateSubnets, hip, hbp, hteq, hpt'] at hok
        have htr := (isValidPrefixLength_iff t).mp hpt
        have htgt : b < t := by
          by_contra hF
          have hle : t ≤ b := by omega
          simp [calculateSubnets, hip, hbp, hteq, hpt, hle] at hok
        rw [calculateSubnets_split ip b t hip (by omega) htgt (by omega)] at hok
        injection hok with hok
        subst hok
        obtain ⟨i, hirange, hrow⟩ := List.mem_map.mp hs
        have hi : i < 2 ^ ((t - b).toNat) := List.mem_range.mp hirange
        obtain ⟨N, hNe, hmod, hadd⟩ := getNetworkAddress_facts ip b hb (by omega)
        rw [hNe] at hrow
        subst hrow
        have ht30 : t ≤ 30 := by
          simpa [splitSubnetRow] using hp30
        have hk2 : 2 ≤ (32 - t).toNat := by omega
        have hB4 : (4 : Int) ≤ 2 ^ ((32 - t).toNat) := by
          calc (4 : Int) = 2 ^ 2 := by norm_num
          _ ≤ 2 ^ ((32 - t).toNat) := pow_le_pow_right₀ (by norm_num) hk2
        exact splitSubnetRow_usable (N : Int) _ t i (by omega) hB4
          (enumeration_bound N b t i hb htgt (by omega) hadd hi)

/-- Witness for C5 at 192.168.1.0/24: 254 = 256 - 2 usable hosts, first
usable network + 1, last usable broadcast - 1. -/
theorem C5_usable_host_counts_witness :
    getUsableHosts 24 = getTotalAddresses 24 - 2 ∧
    ipToInt (Subnet.firstUsable (singleNetworkSubnet "192.168.1.0" 24)) =
      ipToInt (Subnet.networkAddress (singleNetworkSubnet "192.168.1.0" 24)) + 1 ∧
    ipToInt (Subnet.lastUsable (singleNetworkSubnet "192.168.1.0" 24)) =
      ipToInt (Subnet.broadcastAddress (singleNetworkSubnet "192.168.1.0" 24)) - 1 := by
  have h3 := C5_usable_host_counts.2.2 "192.168.1.0" 24 none
    [singleNetworkSubnet "192.168.1.0" 24] (by norm_num) (by decide)
    (singleNetworkSubnet "192.168.1.0" 24) (by simp) (by decide)
  exact ⟨C5_usable_host_counts.2.1 24 (by norm_num) (by norm_num), h3.1, h3.2⟩


/-- C1 counterexample to the claim as stated over all valid prefix pairs:
at base prefix 0 (valid) the shift-by-32 slip leaves the base network
unmasked, so splitting 0.0.0.1/0 into /1 yields blocks starting at address
integer 1; the second block wraps around 2^32 and its broadcast integer is
0, not the claimed network + 2^31 - 1 (which would be 2^32, outside the
address space); the networks are also not in ascending order of coverage of
the base range. -/
theorem C1_counterexample :
    (enumeratedSubnets "0.0.0.1" 0 1).map
      (fun s => (ipToInt s.networkAddress, ipToInt s.broadcastAddress)) =
      [(1, 2147483648), (2147483649, 0)] ∧
    (0 : Int) ≠ ipToInt (getNetworkAddress "0.0.0.1" 0) + 2 ^ 31 + (2 ^ 31 - 1) := by
  constructor
  · decide
  · decide

/-- C1 (amended: base prefix at least 1, so that the shift-by-32 slip of
getNetworkAddress at prefix 0 is out of scope): splitting a valid network
ip/b into target prefix t with 1 ≤ b < t ≤ 32 succeeds and returns exactly
2^(t-b) rows; the i-th row (0-based) is numbered i+1 and its network and
broadcast integers are N + i*2^(32-t) and N + i*2^(32-t) + (2^(32-t) - 1),
with N the base network integer; consecutive rows are strictly ascending
and contiguous (next network = previous broadcast + 1); the first network
is N and the last broadcast is N + 2^(32-b) - 1, so the blocks are
non-overlapping and cover exactly the base network's address range. -/
theorem C1_subnet_enumeration (ip : String) (b t : Int) (hip : isValidIP ip = true)
    (hb : 1 ≤ b) (hbt : b < t) (ht : t ≤ 32) :
    calculateSubnets ip b (some t) =
      .ok ((List.range (2 ^ ((t - b).toNat))).map
        (splitSubnetRow (ipToInt (getNetworkAddress ip b)) (2 ^ ((32 - t).toNat)) t)) ∧
    (enumeratedSubnets ip b t).length = 2 ^ ((t - b).toNat) ∧
    ((enumeratedSubnets ip b t).map
        (fun s => (s.subnetNumber, ipToInt s.networkAddress, ipToInt s.broadcastAddress))) =
      (List.range (2 ^ ((t - b).toNat))).map (fun (i : Nat) =>
        ((i : Int) + 1,
         ipToInt (getNetworkAddress ip b) + (i : Int) * 2 ^ ((32 - t).toNat),
         ipToInt (getNetworkAddress ip b) + (i : Int) * 2 ^ ((32 - t).toNat) +
           (2 ^ ((32 - t).toNat) - 1))) ∧
    (∀ j : Nat, j + 1 < 2 ^ ((t - b).toNat) →
      ipToInt (((enumeratedSubnets ip b t).getD j defaultSubnet).networkAddress) <
        ipToInt (((enumeratedSubnets ip b t).getD (j + 1) defaultSubnet).networkAddress) ∧
      ipToInt (((enumeratedSubnets ip b t).getD (j + 1) defaultSubnet).networkAddress) =
        ipToInt (((enumeratedSubnets ip b t).getD j defaultSubnet).broadcastAddress) + 1) ∧
    ipToInt (((enumeratedSubnets ip b t).getD 0 defaultSubnet).networkAddress) =
      ipToInt (getNetworkAddress ip b) ∧
    ipToInt (((enumeratedSubnets ip b t).getD (2 ^ ((t - b).toNat) - 1)
        defaultSubnet).broadcastAddress) =
      ipToInt (getNetworkAddress ip b) + (2 ^ ((32 - b).toNat) - 1) := by
  obtain ⟨N, hNe, hmod, hadd⟩ := getNetworkAddress_facts ip b hb (by omega)
  have hsplit := calculateSubnets_split ip b t hip (by omega) hbt ht
  have hB1 : (1 : Int) ≤ 2 ^ ((32 - t).toNat) := by
    have : (0 : Int) < 2 ^ ((32 - t).toNat) := by positivity
    omega
  have hlist : enumeratedSubnets ip b t =
      (List.range (2 ^ ((t - b).toNat))).map
        (splitSubnetRow (N : Int) (2 ^ ((32 - t).toNat)) t) := by
    rw [enumeratedSubnets, hsplit, hNe]
    rfl
  have hfields : ∀ i : Nat, i < 2 ^ ((t - b).toNat) →
      ipToInt ((splitSubnetRow (N : Int) (2 ^ ((32 - t).toNat)) t i).networkAddress) =
        (N : Int) + (i : Int) * 2 ^ ((32 - t).toNat) ∧
      ipToInt ((splitSubnetRow (N : Int) (2 ^ ((32 - t).toNat)) t i).broadcastAddress) =
        (N : Int) + (i : Int) * 2 ^ ((32 - t).toNat) + (2 ^ ((32 - t).toNat) - 1) ∧
      (splitSubnetRow (N : Int) (2 ^ ((32 - t).toNat)) t i).subnetNumber = (i : Int) + 1 := by
    intro i hi
    obtain ⟨h1, h2, h3, _⟩ := splitSubnetRow_fields (N : Int) (2 ^ ((32 - t).toNat)) t i
      (by omega) hB1 (enumeration_bound N b t i hb hbt ht hadd hi)
    exact ⟨h1, h2, h3⟩
  have hgetD : ∀ j : Nat, j < 2 ^ ((t - b).toNat) →
      (enumeratedSubnets ip b t).getD j defaultSubnet =
        splitSubnetRow (N : Int) (2 ^ ((32 - t).toNat)) t j := by
    intro j hj
    rw [hlist, List.getD_eq_getElem?_getD, List.getElem?_map, List.getElem?_range hj]
    rfl
  refine ⟨by rw [hsplit], ?_, ?_, ?_, ?_, ?_⟩
  · rw [hlist, List.length_map, List.length_range]
  · rw [hlist, List.map_map]
    refine List.map_congr_left ?_
    intro i hi
    have hi' : i < 2 ^ ((t - b).toNat) := List.mem_range.mp hi
    obtain ⟨h1, h2, h3⟩ := hfields i hi'
    simp only [Function.comp_apply, h1, h2, h3, hNe]
  · intro j hj
    rw [hgetD j (by omega), hgetD (j + 1) (by omega)]
    obtain ⟨hn1, hb1, _⟩ := hfields j (by omega)
    obtain ⟨hn2, _, _⟩ := hfields (j + 1) (by omega)
    rw [hn1, hn2, hb1]
    have hBpos : (0 : Int) < 2 ^ ((32 - t).toNat) := by positivity
    constructor
    · push_cast
      nlinarith
    · push_cast
      ring
  · have hpos : 0 < 2 ^ ((t - b).toNat) := Nat.pos_pow_of_pos _ (by norm_num)
    rw [hgetD 0 hpos]
    obtain ⟨hn1, _, _⟩ := hfields 0 hpos
    rw [hn1, hNe]
    push_cast
    try ring
  · have hpos : 0 < 2 ^ ((t - b).toNat) := Nat.pos_pow_of_pos _ (by norm_num)
    rw [hgetD (2 ^ ((t - b).toNat) - 1) (by omega)]
    obtain ⟨_, hb1, _⟩ := hfields (2 ^ ((t - b).toNat) - 1) (by omega)
    rw [hb1, hNe]
    have htb2 : (t - b).toNat + (32 - t).toNat = (32 - b).toNat := by omega
    have hpow : ((2 ^ ((t - b).toNat) : Nat) : Int) * 2 ^ ((32 - t).toNat) =
        2 ^ ((32 - b).toNat) := by
      have : (2 ^ ((t - b).toNat) * 2 ^ ((32 - t).toNat) : Nat) = 2 ^ ((32 - b).toNat) := by
        rw [← pow_add, htb2]
      exact_mod_cast this
    have hc : ((2 ^ ((t - b).toNat) - 1 : Nat) : Int) = ((2 ^ ((t - b).toNat) : Nat) : Int) - 1 := by
      have : (1 : Nat) ≤ 2 ^ ((t - b).toNat) := Nat.one_le_two_pow
      push_cast [Nat.cast_sub this]
      ring
    rw [hc]
    have hring : (((2 ^ ((t - b).toNat) : Nat) : Int) - 1) * 2 ^ ((32 - t).toNat) +
        (2 ^ ((32 - t).toNat) - 1) =
        ((2 ^ ((t - b).toNat) : Nat) : Int) * 2 ^ ((32 - t).toNat) - 1 := by
      ring
    rw [add_assoc, hring, hpow]
    try ring

/-- Witness for C1 at 192.168.1.0/24 split to /26: four rows numbered 1-4
with the expected network and broadcast integers. -/
theorem C1_subnet_enumeration_witness :
    ((enumeratedSubnets "192.168.1.0" 24 26).map
      (fun s => (s.subnetNumber, ipToInt s.networkAddress, ipToInt s.broadcastAddress))) =
      [(1, 3232235776, 3232235839), (2, 3232235840, 3232235903),
       (3, 3232235904, 3232235967), (4, 3232235968, 3232236031)] := by
  have h := (C1_subnet_enumeration "192.168.1.0" 24 26 (by decide) (by norm_num)
    (by norm_num) (by norm_num)).2.2.1
  exact h.trans (by decide)


end SubnetEngine
